import Mathlib

/-!
Verification of the `vr.common` balancer backends.

This development shallowly embeds the three balancer backends of
`vr/common/balancer/` — the SSH/config-file balancer (`base.py`,
`SshBasedBalancer`, the spec's ConfigFileBackend), the Stingray RPC
balancer (`stingray.py`, `StingrayBalancer`, the spec's RemoteAPIBackend)
and the chained composite balancer (`chained.py`, `ChainedBalancer`, the
spec's CompositeBalancer) — and proves the membership, ordering, fan-out
and error-handling properties of their operations.

Remote state is made explicit: the SSH balancer's per-host config files
become a function from host and pool to the node set recorded there; the
Stingray control plane becomes an association list from (prefixed) pool
name to its node list.  Each operation returns its new state together with
the list of observable side effects (file writes, reloads, SOAP calls,
sleeps), so ordering and frame properties can be stated directly.
-/

namespace VrBalancer

/-! ### SSH-based balancer (`vr/common/balancer/base.py`) -/

abbrev Host := String
abbrev Pool := String
abbrev Node := String

/-- Per-host config-file contents: for each host and pool, the set of nodes
that host's config file currently lists.  This is what `_get_host_nodes`
reads and `_set_host_nodes` overwrites (subclass contract, base.py 51-52).
Python set semantics make it a `Finset`. -/
def SshState : Type := Host → Pool → Finset Node

/-- Observable side effects of an SSH-balancer operation: writing one
host's config file (`_set_host_nodes`), reloading one host
(`_reload_config`), entering `delete_pool_if_empty` (base.py 39), and a
`delete_pool` call (base.py 36). -/
inductive HEvent : Type
  | setNodes (host : Host) (pool : Pool) (nodes : Finset Node)
  | reload (host : Host)
  | poolEmptyCheck (pool : Pool)
  | deletePool (pool : Pool)
  deriving DecidableEq

/-- Accumulator loop of `SshBasedBalancer.get_nodes` (base.py 108-125):
`nodes` starts as `None`; each host's set is compared with the accumulated
value; a mismatch emits one divergence warning and replaces the
accumulator by the union.  Returns the final accumulator and the number of
warnings emitted. -/
def sshGetNodesLoop (st : SshState) (pool : Pool) :
    List Host → Option (Finset Node) → Nat → Option (Finset Node) × Nat
  | [], acc, w => (acc, w)
  | h :: rest, acc, w =>
    match acc with
    | none => sshGetNodesLoop st pool rest (some (st h pool)) w
    | some ns =>
      if st h pool ≠ ns then
        sshGetNodesLoop st pool rest (some (ns ∪ st h pool)) (w + 1)
      else
        sshGetNodesLoop st pool rest (some ns) w

/-- Result of `SshBasedBalancer.get_nodes` as a set.  The source returns
`list(nodes)` when the accumulator is truthy and `[]` otherwise (base.py
123-125); as a set of nodes both the `None` case and the empty-set case
are the empty set. -/
def sshGetNodes (st : SshState) (hosts : List Host) (pool : Pool) : Finset Node :=
  ((sshGetNodesLoop st pool hosts none 0).1).getD ∅

/-- Number of divergence warnings emitted by one `get_nodes` call
(`warnings.warn`, base.py 121). -/
def sshWarnings (st : SshState) (hosts : List Host) (pool : Pool) : Nat :=
  (sshGetNodesLoop st pool hosts none 0).2

/-- Union of the node sets observed on all hosts for a pool. -/
def sshUnionAll (st : SshState) (hosts : List Host) (pool : Pool) : Finset Node :=
  hosts.foldl (fun acc h => acc ∪ st h pool) ∅

/-- Shared shape of `add_nodes` and `delete_nodes` (base.py 127-136): for
each host in order, write the set `f st host` to that host's config file
for `pool`, then reload that host.  `f` receives the state current at the
time of the write. -/
def sshWriteLoop (pool : Pool) (f : SshState → Host → Finset Node) :
    List Host → SshState → SshState × List HEvent
  | [], st => (st, [])
  | h :: rest, st =>
    let step := sshWriteLoop pool f rest
      (fun h' p' => if h' = h ∧ p' = pool then f st h else st h' p')
    (step.1, HEvent.setNodes h pool (f st h) :: HEvent.reload h :: step.2)

/-- Function `SshBasedBalancer.add_nodes` (base.py 127-131): compute
`set(self.get_nodes(pool)).union(nodes)` once, then write that full set to
every host and reload each host. -/
def sshAddNodes (hosts : List Host) (st : SshState) (pool : Pool)
    (nodes : Finset Node) : SshState × List HEvent :=
  sshWriteLoop pool (fun _ _ => sshGetNodes st hosts pool ∪ nodes) hosts st

/-- Function `SshBasedBalancer.delete_nodes` (base.py 133-136) together
with `_delete_host_nodes` (base.py 103-106): for each host, read that
host's own current set, write `current.difference(nodes)` back to that
host, and reload it.  Nothing else happens after the loop. -/
def sshDeleteNodes (hosts : List Host) (st : SshState) (pool : Pool)
    (nodes : Finset Node) : SshState × List HEvent :=
  sshWriteLoop pool (fun cur h => cur h pool \ nodes) hosts st

/-- Default `Balancer.delete_pool_if_empty` (base.py 39-43) as seen by the
SSH balancer: read membership through `get_nodes`; if it is empty, call
`delete_pool`.  The `poolEmptyCheck` event marks the call itself. -/
def sshDeletePoolIfEmpty (hosts : List Host) (st : SshState) (pool : Pool) :
    List HEvent :=
  HEvent.poolEmptyCheck pool ::
    (if sshGetNodes st hosts pool = ∅ then [HEvent.deletePool pool] else [])

/-! ### Stingray balancer (`vr/common/balancer/stingray.py`) -/

/-- SOAP calls and waits issued by the Stingray balancer, in program
order.  `getNodes`, `disableNodes`, `removeNodes`, `addNodesCall`,
`addPool` and `deletePool` carry the (prefixed) pool name they are issued
against, as built by `_call_node_func` (stingray.py 72-81). -/
inductive SEvent : Type
  | getNodes (pool : Pool)
  | disableNodes (pool : Pool) (nodes : List Node)
  | sleep (seconds : Nat)
  | removeNodes (pool : Pool) (nodes : List Node)
  | addNodesCall (pool : Pool) (nodes : List Node)
  | addPool (pool : Pool) (nodes : List Node)
  | deletePool (pool : Pool)
  deriving DecidableEq

/-- Configuration of `StingrayBalancer.__init__` (stingray.py 48-70): the
pool-name front piece and the drain grace period. -/
structure StingrayConfig : Type where
  poolPfx : String
  gracePeriod : Nat

/-- Constructor defaults `config.get('POOL_PREFIX', '')` (stingray.py 64)
and `config.get('GRACE_PERIOD', 2)` (stingray.py 70). -/
def mkStingrayConfig (pfx : Option String) (grace : Option Nat) : StingrayConfig :=
  ⟨pfx.getD "", grace.getD 2⟩

/-- Remote Stingray control-plane state: the pools it knows, each with its
node list, keyed by full (prefixed) pool name. -/
def StingrayState : Type := List (Pool × List Node)

/-- Membership lookup on the remote state; `none` means the remote raises
an `Unknown pool` fault for that pool. -/
def lookupPool (st : StingrayState) (p : Pool) : Option (List Node) :=
  (st.find? (fun e => e.1 == p)).map (fun e => e.2)

/-- Function `StingrayBalancer.get_nodes` (stingray.py 140-151): ask the
remote for the prefixed pool's nodes; an `Unknown pool` fault is
normalized to `[]`. -/
def stingrayGetNodes (cfg : StingrayConfig) (st : StingrayState) (pool : Pool) :
    List Node :=
  (lookupPool st (cfg.poolPfx ++ pool)).getD []

/-- Expression `list(set(self.get_nodes(pool)).intersection(nodes))`
(stingray.py 97-98) as a duplicate-free list. -/
def stingrayIntersect (cfg : StingrayConfig) (st : StingrayState) (pool : Pool)
    (nodes : List Node) : List Node :=
  ((stingrayGetNodes cfg st pool).dedup).filter (fun n => decide (n ∈ nodes))

/-- Effect of the remote `removeNodes` call on the control-plane state:
the listed nodes disappear from the pool's membership. -/
def removeFromPool (st : StingrayState) (p : Pool) (ns : List Node) : StingrayState :=
  st.map (fun e =>
    if e.1 == p then (e.1, e.2.filter (fun n => decide (n ∉ ns))) else e)

/-- Effect of the remote `deletePool` call: the pool entry disappears. -/
def deletePoolState (st : StingrayState) (p : Pool) : StingrayState :=
  st.filter (fun e => e.1 != p)

/-- Function `StingrayBalancer.delete_pool` (stingray.py 124-132): issue
the remote `deletePool` call on the prefixed name; an `Unknown pool` fault
is swallowed. -/
def stingrayDeletePool (cfg : StingrayConfig) (st : StingrayState) (pool : Pool) :
    StingrayState × List SEvent :=
  (deletePoolState st (cfg.poolPfx ++ pool),
   [SEvent.deletePool (cfg.poolPfx ++ pool)])

/-- Function `StingrayBalancer.delete_pool_if_empty` (stingray.py
134-138): read membership via `get_nodes`; if it is empty, call
`delete_pool`. -/
def stingrayDeletePoolIfEmpty (cfg : StingrayConfig) (st : StingrayState)
    (pool : Pool) : StingrayState × List SEvent :=
  if (stingrayGetNodes cfg st pool).isEmpty then
    ((stingrayDeletePool cfg st pool).1,
     SEvent.getNodes (cfg.poolPfx ++ pool) :: (stingrayDeletePool cfg st pool).2)
  else
    (st, [SEvent.getNodes (cfg.poolPfx ++ pool)])

/-- Function `StingrayBalancer.delete_nodes` (stingray.py 96-118): narrow
the requested nodes to their intersection with current membership; if that
is empty, return at once.  Otherwise call `disableNodes`, sleep for the
grace period, call `removeNodes`, and finally run
`delete_pool_if_empty`. -/
def stingrayDeleteNodes (cfg : StingrayConfig) (st : StingrayState) (pool : Pool)
    (nodes : List Node) : StingrayState × List SEvent :=
  let ns := stingrayIntersect cfg st pool nodes
  if ns.isEmpty then
    (st, [SEvent.getNodes (cfg.poolPfx ++ pool)])
  else
    let cleanup := stingrayDeletePoolIfEmpty cfg
      (removeFromPool st (cfg.poolPfx ++ pool) ns) pool
    (cleanup.1,
     SEvent.getNodes (cfg.poolPfx ++ pool)
       :: SEvent.disableNodes (cfg.poolPfx ++ pool) ns
       :: SEvent.sleep cfg.gracePeriod
       :: SEvent.removeNodes (cfg.poolPfx ++ pool) ns
       :: cleanup.2)

/-- A SOAP fault message (`WebFault.message` in the source). -/
abbrev FaultMsg := String

/-- Test `'Unknown pool' in wf.message` (stingray.py 90): substring check
on the fault message. -/
def mentionsUnknownPool (msg : FaultMsg) : Bool :=
  decide ("Unknown pool".data <:+: msg.data)

/-- Function `StingrayBalancer.add_nodes` (stingray.py 83-94),
parametrized by the remote outcome of the `addNodes` call (`none` =
success, `some msg` = a `WebFault` with that message): on an
`Unknown pool` fault, fall back to `add_pool` (stingray.py 120-122), which
issues one `addPool` call carrying the same full node list; any other
fault is re-raised. -/
def stingrayAddNodes (cfg : StingrayConfig) (outcome : Option FaultMsg)
    (pool : Pool) (nodes : List Node) : Except FaultMsg Unit × List SEvent :=
  match outcome with
  | none => (Except.ok (), [SEvent.addNodesCall (cfg.poolPfx ++ pool) nodes])
  | some msg =>
    if mentionsUnknownPool msg then
      (Except.ok (),
       [SEvent.addNodesCall (cfg.poolPfx ++ pool) nodes,
        SEvent.addPool (cfg.poolPfx ++ pool) nodes])
    else
      (Except.error msg, [SEvent.addNodesCall (cfg.poolPfx ++ pool) nodes])

/-! ### Chained balancer (`vr/common/balancer/chained.py`) -/

/-- Python `sorted(set(xs))` on node strings: deduplicate, then sort. -/
def pySortedSet (xs : List Node) : List Node := xs.dedup.mergeSort

/-- Function `ChainedBalancer.get_nodes` (chained.py 52-56): extend a list
with every child's `get_nodes` result, then return `sorted(set(nodes))`.
A child is modelled by the result it reports for each pool.  The second
component counts divergence warnings emitted at this layer; the source
emits none. -/
def chainedGetNodes (children : List (Pool → List Node)) (pool : Pool) :
    List Node × Nat :=
  (pySortedSet ((children.map (fun b => b pool)).flatten), 0)

/-- Outcome of invoking one child backend: `none` = success, `some msg` =
the exception it raises. -/
abbrev ChildOutcome := Option FaultMsg

/-- Function `ChainedBalancer._foreach_balancer` (chained.py 40-44):
invoke the method on each child in list order with the same argument; the
plain `for` loop has no handler, so a raised exception aborts the loop and
propagates.  Returns the calls made, in order, as (child index, argument)
pairs, and the propagated exception if any. -/
def foreachBalancer {α : Type} (arg : α) :
    List ChildOutcome → Nat → List (Nat × α) × Option FaultMsg
  | [], _ => ([], none)
  | none :: rest, i =>
    let step := foreachBalancer arg rest (i + 1)
    ((i, arg) :: step.1, step.2)
  | some f :: _rest, i => ([(i, arg)], some f)

/-- Function `ChainedBalancer.add_nodes` (chained.py 46-47). -/
def chainedAddNodes (outcomes : List ChildOutcome) (pool : Pool)
    (nodes : List Node) : List (Nat × (Pool × List Node)) × Option FaultMsg :=
  foreachBalancer (pool, nodes) outcomes 0

/-- Function `ChainedBalancer.delete_nodes` (chained.py 49-50). -/
def chainedDeleteNodes (outcomes : List ChildOutcome) (pool : Pool)
    (nodes : List Node) : List (Nat × (Pool × List Node)) × Option FaultMsg :=
  foreachBalancer (pool, nodes) outcomes 0

/-- Function `ChainedBalancer.delete_pool` (chained.py 58-59). -/
def chainedDeletePool (outcomes : List ChildOutcome) (pool : Pool) :
    List (Nat × Pool) × Option FaultMsg :=
  foreachBalancer pool outcomes 0

/-! ### Concrete states used by witnesses and counterexamples -/

/-- Three hosts with pairwise different node sets. -/
def exDivergentSt : SshState := fun h _ =>
  if h = "h1" then {"a"} else if h = "h2" then {"b"} else {"c"}

/-- Every host's config file lists exactly the node `a`. -/
def exAgreeSt : SshState := fun _ _ => {"a"}

/-- Default Stingray configuration: empty pool-name front piece, grace
period 2. -/
def cfg0 : StingrayConfig := mkStingrayConfig none none

/-- Remote state with one pool `p` whose single member is `a`. -/
def stPoolA : StingrayState := [("p", ["a"])]

/-- Remote state with one known pool `p` that has no members. -/
def stPoolEmpty : StingrayState := [("p", [])]

/-! ### Lemmas about the SSH `get_nodes` loop -/

theorem sshGetNodesLoop_fst_union (st : SshState) (pool : Pool) :
    ∀ (hs : List Host) (ns : Finset Node) (w : Nat),
      (sshGetNodesLoop st pool hs (some ns) w).1
        = some (hs.foldl (fun acc h => acc ∪ st h pool) ns) := by
  intro hs
  induction hs with
  | nil => intro ns w; simp [sshGetNodesLoop]
  | cons a t ih =>
    intro ns w
    by_cases hne : st a pool ≠ ns
    · simp [sshGetNodesLoop, hne, ih]
    · push_neg at hne
      simp [sshGetNodesLoop, hne, ih]

theorem sshGetNodesLoop_const (st : SshState) (pool : Pool) :
    ∀ (hs : List Host) (ns : Finset Node) (w : Nat),
      (∀ h ∈ hs, st h pool = ns) →
      sshGetNodesLoop st pool hs (some ns) w = (some ns, w) := by
  intro hs
  induction hs with
  | nil => intro ns w _; simp [sshGetNodesLoop]
  | cons a t ih =>
    intro ns w hall
    have ha : st a pool = ns := hall a (List.mem_cons_self a t)
    simp [sshGetNodesLoop, ha]
    exact ih ns w (fun h hh => hall h (List.mem_cons_of_mem a hh))

theorem sshGetNodesLoop_warn_le (st : SshState) (pool : Pool) :
    ∀ (hs : List Host) (acc : Option (Finset Node)) (w : Nat),
      w ≤ (sshGetNodesLoop st pool hs acc w).2 := by
  intro hs
  induction hs with
  | nil => intro acc w; simp [sshGetNodesLoop]
  | cons a t ih =>
    intro acc w
    match acc with
    | none => simpa [sshGetNodesLoop] using ih (some (st a pool)) w
    | some ns =>
      by_cases hne : st a pool ≠ ns
      · simp only [sshGetNodesLoop, if_pos hne]
        exact (Nat.le_succ w).trans (ih _ (w + 1))
      · simp only [sshGetNodesLoop, if_neg hne]
        exact ih _ w

theorem sshGetNodesLoop_warn_zero (st : SshState) (pool : Pool) :
    ∀ (hs : List Host) (ns : Finset Node) (w : Nat),
      ((sshGetNodesLoop st pool hs (some ns) w).2 = w ↔ ∀ h ∈ hs, st h pool = ns) := by
  intro hs
  induction hs with
  | nil => intro ns w; simp [sshGetNodesLoop]
  | cons a t ih =>
    intro ns w
    by_cases hne : st a pool ≠ ns
    · simp only [sshGetNodesLoop, if_pos hne]
      constructor
      · intro hw
        exfalso
        have := sshGetNodesLoop_warn_le st pool t (some (ns ∪ st a pool)) (w + 1)
        omega
      · intro hall
        exact absurd (hall a (List.mem_cons_self a t)) hne
    · push_neg at hne
      simp only [sshGetNodesLoop, if_neg (not_not_intro hne)]
      rw [ih]
      constructor
      · intro hall h hh
        rcases List.mem_cons.mp hh with rfl | hh
        · exact hne
        · exact hall h hh
      · intro hall h hh
        exact hall h (List.mem_cons_of_mem a hh)

theorem sshGetNodes_cons (st : SshState) (pool : Pool) (h₀ : Host) (hs : List Host) :
    sshGetNodes st (h₀ :: hs) pool
      = hs.foldl (fun acc h => acc ∪ st h pool) (st h₀ pool) := by
  simp [sshGetNodes, sshGetNodesLoop, sshGetNodesLoop_fst_union]

theorem sshUnionAll_cons (st : SshState) (pool : Pool) (h₀ : Host) (hs : List Host) :
    sshUnionAll st (h₀ :: hs) pool
      = hs.foldl (fun acc h => acc ∪ st h pool) (st h₀ pool) := by
  simp [sshUnionAll, List.foldl_cons, Finset.empty_union]

theorem sshWarnings_cons (st : SshState) (pool : Pool) (h₀ : Host) (hs : List Host) :
    sshWarnings st (h₀ :: hs) pool
      = (sshGetNodesLoop st pool hs (some (st h₀ pool)) 0).2 := by
  simp [sshWarnings, sshGetNodesLoop]

/-- C1 (amended).  `SshBasedBalancer.get_nodes` on a non-empty host list
always returns the union of all hosts' observed node sets; when every host
reports the same set it returns that set and emits no divergence warning;
when any two hosts disagree it emits at least one divergence warning (the
source emits one warning per host whose set differs from the accumulated
set, so a single call can emit more than one — see the counterexample). -/
theorem ssh_get_nodes_union_warnings (st : SshState) (h₀ : Host) (hs : List Host)
    (pool : Pool) :
    sshGetNodes st (h₀ :: hs) pool = sshUnionAll st (h₀ :: hs) pool
    ∧ ((∀ h ∈ h₀ :: hs, st h pool = st h₀ pool) →
        sshGetNodes st (h₀ :: hs) pool = st h₀ pool
          ∧ sshWarnings st (h₀ :: hs) pool = 0)
    ∧ ((∃ h ∈ h₀ :: hs, ∃ h' ∈ h₀ :: hs, st h pool ≠ st h' pool) →
        1 ≤ sshWarnings st (h₀ :: hs) pool) := by
  refine ⟨by rw [sshGetNodes_cons, sshUnionAll_cons], ?_, ?_⟩
  · intro hall
    have htail : ∀ h ∈ hs, st h pool = st h₀ pool :=
      fun h hh => hall h (List.mem_cons_of_mem _ hh)
    have hc := sshGetNodesLoop_const st pool hs (st h₀ pool) 0 htail
    constructor
    · simp [sshGetNodes, sshGetNodesLoop, hc]
    · simp [sshWarnings, sshGetNodesLoop, hc]
  · rintro ⟨h, hh, h', hh', hne⟩
    by_contra hlt
    have hz : sshWarnings st (h₀ :: hs) pool = 0 := by omega
    rw [sshWarnings_cons] at hz
    have htail := (sshGetNodesLoop_warn_zero st pool hs (st h₀ pool) 0).mp hz
    have hall : ∀ x ∈ h₀ :: hs, st x pool = st h₀ pool := by
      intro x hx
      rcases List.mem_cons.mp hx with rfl | hx
      · rfl
      · exact htail x hx
    exact hne ((hall h hh).trans (hall h' hh').symm)

/-- Witness for C1: with two agreeing hosts the common set is returned and
no warning is emitted. -/
theorem ssh_get_nodes_union_warnings_witness :
    sshGetNodes exAgreeSt ["h1", "h2"] "p" = exAgreeSt "h1" "p"
    ∧ sshWarnings exAgreeSt ["h1", "h2"] "p" = 0 :=
  (ssh_get_nodes_union_warnings exAgreeSt "h1" ["h2"] "p").2.1 (by decide)

/-- Counterexample to C1 as stated: with three pairwise-divergent hosts a
single `get_nodes` call emits two divergence warnings, not exactly one. -/
theorem ssh_warnings_can_exceed_one :
    exDivergentSt "h1" "p" ≠ exDivergentSt "h2" "p"
    ∧ sshWarnings exDivergentSt ["h1", "h2", "h3"] "p" = 2 := by decide

/-! ### Lemmas about the SSH write loop -/

theorem sshWriteLoop_const_state (pool : Pool) (c : Finset Node) :
    ∀ (hs : List Host) (st : SshState) (h : Host) (p : Pool),
      (sshWriteLoop pool (fun _ _ => c) hs st).1 h p
        = if h ∈ hs ∧ p = pool then c else st h p := by
  intro hs
  induction hs with
  | nil => intro st h p; simp [sshWriteLoop]
  | cons a t ih =>
    intro st h p
    simp only [sshWriteLoop]
    rw [ih]
    by_cases hp : p = pool
    · subst hp
      by_cases hht : h ∈ t
      · simp [hht]
      · by_cases hha : h = a
        · subst hha; simp [hht]
        · simp [hht, hha]
    · simp [hp]

theorem sshWriteLoop_const_trace (pool : Pool) (c : Finset Node) :
    ∀ (hs : List Host) (st : SshState),
      (sshWriteLoop pool (fun _ _ => c) hs st).2
        = hs.flatMap (fun h => [HEvent.setNodes h pool c, HEvent.reload h]) := by
  intro hs
  induction hs with
  | nil => intro st; simp [sshWriteLoop]
  | cons a t ih => intro st; simp [sshWriteLoop, ih]

theorem sshWriteLoop_sdiff_state (pool : Pool) (nodes : Finset Node) :
    ∀ (hs : List Host) (st : SshState) (h : Host) (p : Pool),
      (sshWriteLoop pool (fun cur h' => cur h' pool \ nodes) hs st).1 h p
        = if h ∈ hs ∧ p = pool then st h pool \ nodes else st h p := by
  intro hs
  induction hs with
  | nil => intro st h p; simp [sshWriteLoop]
  | cons a t ih =>
    intro st h p
    simp only [sshWriteLoop]
    rw [ih]
    by_cases hp : p = pool
    · subst hp
      by_cases hht : h ∈ t
      · by_cases hha : h = a
        · subst hha; simp [hht, sdiff_idem]
        · simp [hht, hha]
      · by_cases hha : h = a
        · subst hha; simp [hht]
        · simp [hht, hha]
    · simp [hp]

theorem sshWriteLoop_sdiff_trace (pool : Pool) (nodes : Finset Node) :
    ∀ (hs : List Host) (st g : SshState),
      (∀ h, st h pool \ nodes = g h pool \ nodes) →
      (sshWriteLoop pool (fun cur h' => cur h' pool \ nodes) hs st).2
        = hs.flatMap (fun h =>
            [HEvent.setNodes h pool (g h pool \ nodes), HEvent.reload h]) := by
  intro hs
  induction hs with
  | nil => intro st g _; simp [sshWriteLoop]
  | cons a t ih =>
    intro st g hinv
    simp only [sshWriteLoop, List.flatMap_cons]
    have hinv1 : ∀ h,
        (fun h' p' => if h' = a ∧ p' = pool then st a pool \ nodes else st h' p')
            h pool \ nodes
          = g h pool \ nodes := by
      intro h
      by_cases hha : h = a
      · subst hha; simp [sdiff_idem, hinv h]
      · simp [hha, hinv h]
    rw [ih _ g hinv1, hinv a]
    rfl

theorem sshGetNodes_all_eq (st : SshState) (pool : Pool) (h₀ : Host) (hs : List Host)
    (ns : Finset Node) (hall : ∀ h ∈ h₀ :: hs, st h pool = ns) :
    sshGetNodes st (h₀ :: hs) pool = ns := by
  have hc := sshGetNodesLoop_const st pool hs ns 0
    (fun h hh => hall h (List.mem_cons_of_mem _ hh))
  have h0 : st h₀ pool = ns := hall h₀ (List.mem_cons_self h₀ hs)
  simp [sshGetNodes, sshGetNodesLoop, h0, hc]

/-- C2 (amended).  `SshBasedBalancer.delete_nodes`: for each configured
host independently, the new set written to that host equals that host's
own current set minus the requested nodes (all other host/pool entries are
untouched), and each write is followed by a reload of that host.  But
contrary to the claim's final clause, no `delete_pool_if_empty` call is
made after the hosts have been processed: the call trace consists of the
per-host writes and reloads only. -/
theorem ssh_delete_nodes_per_host (hosts : List Host) (st : SshState) (pool : Pool)
    (nodes : Finset Node) :
    (∀ h p, (sshDeleteNodes hosts st pool nodes).1 h p
        = if h ∈ hosts ∧ p = pool then st h pool \ nodes else st h p)
    ∧ (sshDeleteNodes hosts st pool nodes).2
        = hosts.flatMap (fun h =>
            [HEvent.setNodes h pool (st h pool \ nodes), HEvent.reload h])
    ∧ (∀ p, HEvent.poolEmptyCheck p ∉ (sshDeleteNodes hosts st pool nodes).2) := by
  simp only [sshDeleteNodes]
  refine ⟨sshWriteLoop_sdiff_state pool nodes hosts st,
    sshWriteLoop_sdiff_trace pool nodes hosts st st (fun _ => rfl), ?_⟩
  intro p hp
  rw [sshWriteLoop_sdiff_trace pool nodes hosts st st (fun _ => rfl)] at hp
  rcases List.mem_flatMap.mp hp with ⟨h, _, hmem⟩
  simp at hmem

/-- Witness for C2 (amended): on one host holding `{a}`, deleting `{a}`
writes that host's own set minus the requested nodes. -/
theorem ssh_delete_nodes_per_host_witness :
    (sshDeleteNodes ["h1"] exAgreeSt "p" {"a"}).1 "h1" "p"
      = exAgreeSt "h1" "p" \ {"a"} := by
  have h := (ssh_delete_nodes_per_host ["h1"] exAgreeSt "p" {"a"}).1 "h1" "p"
  simpa using h

/-- Counterexample to C2 as stated: a `delete_nodes` call that empties the
pool on every host still performs no `delete_pool_if_empty` call. -/
theorem ssh_delete_nodes_no_cleanup_call :
    (sshDeleteNodes ["h1"] exAgreeSt "p" {"a"}).1 "h1" "p" = ∅
    ∧ HEvent.poolEmptyCheck "p" ∉ (sshDeleteNodes ["h1"] exAgreeSt "p" {"a"}).2 := by
  decide

/-- C6.  `SshBasedBalancer.add_nodes` writes the union of the cross-host
read with the requested nodes to every configured host, is idempotent on
the state, and never removes a previously-present member. -/
theorem ssh_add_nodes_idempotent (hosts : List Host) (st : SshState) (pool : Pool)
    (nodes : Finset Node) :
    (∀ h ∈ hosts, (sshAddNodes hosts st pool nodes).1 h pool
        = sshGetNodes st hosts pool ∪ nodes)
    ∧ (sshAddNodes hosts (sshAddNodes hosts st pool nodes).1 pool nodes).1
        = (sshAddNodes hosts st pool nodes).1
    ∧ (∀ n ∈ sshGetNodes st hosts pool,
        n ∈ sshGetNodes (sshAddNodes hosts st pool nodes).1 hosts pool) := by
  have hstate : ∀ h p, (sshAddNodes hosts st pool nodes).1 h p
      = if h ∈ hosts ∧ p = pool then sshGetNodes st hosts pool ∪ nodes else st h p :=
    sshWriteLoop_const_state pool _ hosts st
  have hwritten : ∀ h ∈ hosts, (sshAddNodes hosts st pool nodes).1 h pool
      = sshGetNodes st hosts pool ∪ nodes := by
    intro h hh
    rw [hstate]
    simp [hh]
  have hget : hosts ≠ [] →
      sshGetNodes (sshAddNodes hosts st pool nodes).1 hosts pool
        = sshGetNodes st hosts pool ∪ nodes := by
    intro hne
    match hosts, hwritten with
    | [], _ => exact absurd rfl hne
    | h₀ :: hs, hwritten => exact sshGetNodes_all_eq _ pool h₀ hs _ hwritten
  refine ⟨hwritten, ?_, ?_⟩
  · by_cases hne : hosts = []
    · subst hne
      simp [sshAddNodes, sshWriteLoop]
    · have hsecond : ∀ h p,
          (sshAddNodes hosts (sshAddNodes hosts st pool nodes).1 pool nodes).1 h p
            = if h ∈ hosts ∧ p = pool
                then sshGetNodes (sshAddNodes hosts st pool nodes).1 hosts pool ∪ nodes
                else (sshAddNodes hosts st pool nodes).1 h p :=
        sshWriteLoop_const_state pool _ hosts _
      funext h p
      rw [hsecond, hget hne]
      by_cases hcond : h ∈ hosts ∧ p = pool
      · rw [if_pos hcond, hstate, if_pos hcond]
        rw [Finset.union_assoc, Finset.union_self]
      · rw [if_neg hcond]
  · intro n hn
    by_cases hne : hosts = []
    · subst hne
      simp [sshGetNodes, sshGetNodesLoop] at hn
    · rw [hget hne]
      exact Finset.mem_union_left _ hn

/-- Witness for C6: on one host the written set is the union of the read
with the requested nodes. -/
theorem ssh_add_nodes_idempotent_witness :
    (sshAddNodes ["h1"] exAgreeSt "p" {"b"}).1 "h1" "p"
      = sshGetNodes exAgreeSt ["h1"] "p" ∪ {"b"} :=
  (ssh_add_nodes_idempotent ["h1"] exAgreeSt "p" {"b"}).1 "h1" (by decide)

/-! ### Stingray balancer theorems -/

theorem isEmpty_false_of_ne_nil {α : Type} {l : List α} (h : l ≠ []) :
    l.isEmpty = false := by
  cases l with
  | nil => exact absurd rfl h
  | cons a t => rfl

/-- C3.  `StingrayBalancer.delete_nodes` with a non-empty intersection of
the requested nodes and current membership: the call sequence starts with
the membership read, then `disableNodes` on the intersected set, then a
sleep of exactly the configured grace period, then `removeNodes` on the
same intersected set, in that order; the grace period defaults to 2. -/
theorem stingray_delete_drain_order (cfg : StingrayConfig) (st : StingrayState)
    (pool : Pool) (nodes : List Node)
    (h : stingrayIntersect cfg st pool nodes ≠ []) :
    (stingrayDeleteNodes cfg st pool nodes).2.take 4
      = [SEvent.getNodes (cfg.poolPfx ++ pool),
         SEvent.disableNodes (cfg.poolPfx ++ pool) (stingrayIntersect cfg st pool nodes),
         SEvent.sleep cfg.gracePeriod,
         SEvent.removeNodes (cfg.poolPfx ++ pool) (stingrayIntersect cfg st pool nodes)]
    ∧ (mkStingrayConfig none none).gracePeriod = 2 := by
  refine ⟨?_, rfl⟩
  simp [stingrayDeleteNodes, isEmpty_false_of_ne_nil h]

/-- Witness for C3 at a concrete pool and node set. -/
theorem stingray_delete_drain_order_witness :
    (stingrayDeleteNodes cfg0 stPoolA "p" ["a"]).2.take 4
      = [SEvent.getNodes (cfg0.poolPfx ++ "p"),
         SEvent.disableNodes (cfg0.poolPfx ++ "p") (stingrayIntersect cfg0 stPoolA "p" ["a"]),
         SEvent.sleep cfg0.gracePeriod,
         SEvent.removeNodes (cfg0.poolPfx ++ "p") (stingrayIntersect cfg0 stPoolA "p" ["a"])]
    ∧ (mkStingrayConfig none none).gracePeriod = 2 :=
  stingray_delete_drain_order cfg0 stPoolA "p" ["a"] (by decide)

/-- C4.  `StingrayBalancer.delete_nodes` with an empty intersection of the
requested nodes and current membership returns at once: the state is
unchanged, and the only remote call issued is the membership read — in
particular zero `disableNodes` and zero `removeNodes` calls. -/
theorem stingray_delete_empty_intersection (cfg : StingrayConfig) (st : StingrayState)
    (pool : Pool) (nodes : List Node)
    (h : stingrayIntersect cfg st pool nodes = []) :
    (stingrayDeleteNodes cfg st pool nodes).1 = st
    ∧ (stingrayDeleteNodes cfg st pool nodes).2
        = [SEvent.getNodes (cfg.poolPfx ++ pool)]
    ∧ (∀ p ns, SEvent.disableNodes p ns ∉ (stingrayDeleteNodes cfg st pool nodes).2)
    ∧ (∀ p ns, SEvent.removeNodes p ns ∉ (stingrayDeleteNodes cfg st pool nodes).2) := by
  have he : (stingrayIntersect cfg st pool nodes).isEmpty = true := by
    rw [h]; rfl
  refine ⟨?_, ?_, ?_, ?_⟩ <;> simp [stingrayDeleteNodes, he]

/-- Witness for C4: deleting a non-member issues only the membership
read. -/
theorem stingray_delete_empty_intersection_witness :
    (stingrayDeleteNodes cfg0 stPoolA "p" ["b"]).2
      = [SEvent.getNodes (cfg0.poolPfx ++ "p")] :=
  (stingray_delete_empty_intersection cfg0 stPoolA "p" ["b"] (by decide)).2.1

/-- C10.  When the pool's reported membership is already empty, any
`delete_nodes` call has an empty intersection, returns early, and in
particular never issues a `deletePool` call — the early return skips the
`delete_pool_if_empty` self-cleanup, and the control-plane state is
unchanged. -/
theorem stingray_noop_delete_keeps_empty_pool (cfg : StingrayConfig)
    (st : StingrayState) (pool : Pool) (nodes : List Node)
    (h : stingrayGetNodes cfg st pool = []) :
    stingrayIntersect cfg st pool nodes = []
    ∧ (∀ p, SEvent.deletePool p ∉ (stingrayDeleteNodes cfg st pool nodes).2)
    ∧ (stingrayDeleteNodes cfg st pool nodes).1 = st := by
  have hi : stingrayIntersect cfg st pool nodes = [] := by
    simp [stingrayIntersect, h]
  have he : (stingrayIntersect cfg st pool nodes).isEmpty = true := by
    rw [hi]; rfl
  refine ⟨hi, ?_, ?_⟩ <;> simp [stingrayDeleteNodes, he]

/-- Witness for C10: a no-op delete against a known-but-empty pool leaves
the pool in place. -/
theorem stingray_noop_delete_keeps_empty_pool_witness :
    (stingrayDeleteNodes cfg0 stPoolEmpty "p" ["a"]).1 = stPoolEmpty :=
  (stingray_noop_delete_keeps_empty_pool cfg0 stPoolEmpty "p" ["a"] (by decide)).2.2

/-- C9.  `StingrayBalancer.delete_pool_if_empty` reads membership via
`get_nodes` (the first event of its trace) and issues `deletePool` exactly
when that read is empty; consequently a `delete_nodes` call with a
non-empty intersection issues a `deletePool` call exactly when the
`removeNodes` step emptied the pool's membership. -/
theorem stingray_delete_pool_if_empty_cleanup (cfg : StingrayConfig)
    (st : StingrayState) (pool : Pool) (nodes : List Node) :
    ((stingrayDeletePoolIfEmpty cfg st pool).2.head?
        = some (SEvent.getNodes (cfg.poolPfx ++ pool)))
    ∧ (SEvent.deletePool (cfg.poolPfx ++ pool)
          ∈ (stingrayDeletePoolIfEmpty cfg st pool).2
        ↔ stingrayGetNodes cfg st pool = [])
    ∧ (stingrayIntersect cfg st pool nodes ≠ [] →
        (SEvent.deletePool (cfg.poolPfx ++ pool)
            ∈ (stingrayDeleteNodes cfg st pool nodes).2
          ↔ stingrayGetNodes cfg
              (removeFromPool st (cfg.poolPfx ++ pool)
                (stingrayIntersect cfg st pool nodes)) pool = [])) := by
  have hmain : ∀ s : StingrayState,
      (stingrayDeletePoolIfEmpty cfg s pool).2.head?
        = some (SEvent.getNodes (cfg.poolPfx ++ pool))
      ∧ (SEvent.deletePool (cfg.poolPfx ++ pool)
            ∈ (stingrayDeletePoolIfEmpty cfg s pool).2
          ↔ stingrayGetNodes cfg s pool = []) := by
    intro s
    by_cases hemp : stingrayGetNodes cfg s pool = []
    · have he : (stingrayGetNodes cfg s pool).isEmpty = true := by rw [hemp]; rfl
      simp [stingrayDeletePoolIfEmpty, stingrayDeletePool, he, hemp]
    · have he : (stingrayGetNodes cfg s pool).isEmpty = false :=
        isEmpty_false_of_ne_nil hemp
      simp [stingrayDeletePoolIfEmpty, he, hemp]
  refine ⟨(hmain st).1, (hmain st).2, ?_⟩
  intro hne
  have he : (stingrayIntersect cfg st pool nodes).isEmpty = false :=
    isEmpty_false_of_ne_nil hne
  have htail := (hmain (removeFromPool st (cfg.poolPfx ++ pool)
    (stingrayIntersect cfg st pool nodes))).2
  simp only [stingrayDeleteNodes, he]
  simp [List.mem_cons]
  rw [← htail]

/-- Witness for C9: deleting the only member of a pool triggers the
self-cleanup `deletePool` call. -/
theorem stingray_delete_pool_if_empty_cleanup_witness :
    SEvent.deletePool (cfg0.poolPfx ++ "p")
      ∈ (stingrayDeleteNodes cfg0 stPoolA "p" ["a"]).2 :=
  ((stingray_delete_pool_if_empty_cleanup cfg0 stPoolA "p" ["a"]).2.2
    (by decide)).mpr (by decide)

/-- C5.  `StingrayBalancer.add_nodes`: on success no pool creation
happens; on a `WebFault` whose message mentions `Unknown pool`, exactly
one `addPool` call is issued, carrying the full requested node set, and
the call succeeds; on any other fault no pool creation happens and the
fault propagates to the caller unchanged. -/
theorem stingray_add_nodes_lazy_pool (cfg : StingrayConfig)
    (outcome : Option FaultMsg) (pool : Pool) (nodes : List Node) :
    (outcome = none →
      stingrayAddNodes cfg outcome pool nodes
        = (Except.ok (), [SEvent.addNodesCall (cfg.poolPfx ++ pool) nodes]))
    ∧ (∀ msg, outcome = some msg → mentionsUnknownPool msg = true →
        stingrayAddNodes cfg outcome pool nodes
          = (Except.ok (),
             [SEvent.addNodesCall (cfg.poolPfx ++ pool) nodes,
              SEvent.addPool (cfg.poolPfx ++ pool) nodes]))
    ∧ (∀ msg, outcome = some msg → mentionsUnknownPool msg = false →
        stingrayAddNodes cfg outcome pool nodes
          = (Except.error msg,
             [SEvent.addNodesCall (cfg.poolPfx ++ pool) nodes])) := by
  refine ⟨?_, ?_, ?_⟩
  · rintro rfl; rfl
  · rintro msg rfl hu
    simp [stingrayAddNodes, hu]
  · rintro msg rfl hu
    simp [stingrayAddNodes, hu]

/-- Witness for C5: an `Unknown pool` fault triggers exactly one
`addPool` call carrying the full node set, and the operation succeeds. -/
theorem stingray_add_nodes_lazy_pool_witness :
    stingrayAddNodes cfg0 (some "Unknown pool: p") "p" ["a"]
      = (Except.ok (),
         [SEvent.addNodesCall (cfg0.poolPfx ++ "p") ["a"],
          SEvent.addPool (cfg0.poolPfx ++ "p") ["a"]]) :=
  (stingray_add_nodes_lazy_pool cfg0 (some "Unknown pool: p") "p" ["a"]).2.1
    "Unknown pool: p" rfl (by decide)

/-! ### Chained balancer theorems -/

/-- C7.  `ChainedBalancer.get_nodes` returns the sorted, deduplicated
union of all children's results, and emits no divergence warning at this
layer. -/
theorem chained_get_nodes_sorted_union (children : List (Pool → List Node))
    (pool : Pool) :
    List.Sorted (fun a b => a ≤ b) (chainedGetNodes children pool).1
    ∧ (chainedGetNodes children pool).1.Nodup
    ∧ (∀ n, n ∈ (chainedGetNodes children pool).1 ↔ ∃ b ∈ children, n ∈ b pool)
    ∧ (chainedGetNodes children pool).2 = 0 := by
  refine ⟨List.sorted_mergeSort' _,
    ((List.mergeSort_perm _ _).nodup_iff).mpr (List.nodup_dedup _), ?_, rfl⟩
  intro n
  simp [chainedGetNodes, pySortedSet, List.mem_mergeSort, List.mem_dedup,
    List.mem_flatten]

/-- Witness for C7: a node reported by a child appears in the merged
result. -/
theorem chained_get_nodes_sorted_union_witness :
    "a" ∈ (chainedGetNodes [fun _ => ["a"]] "p").1 :=
  ((chained_get_nodes_sorted_union [fun _ => ["a"]] "p").2.2.1 "a").mpr
    ⟨fun _ => ["a"], List.mem_singleton_self _, by decide⟩

theorem foreachBalancer_all_ok {α : Type} (arg : α) :
    ∀ (outcomes : List ChildOutcome) (i : Nat),
      (∀ o ∈ outcomes, o = none) →
      foreachBalancer arg outcomes i
        = ((List.range' i outcomes.length).map (fun j => (j, arg)), none) := by
  intro outcomes
  induction outcomes with
  | nil => intro i _; simp [foreachBalancer, List.range']
  | cons o rest ih =>
    intro i hall
    have ho : o = none := hall o (List.mem_cons_self o rest)
    subst ho
    simp [foreachBalancer, List.range',
      ih (i + 1) (fun o ho => hall o (List.mem_cons_of_mem _ ho))]

theorem foreachBalancer_first_fault {α : Type} (arg : α) :
    ∀ (k : Nat) (outcomes : List ChildOutcome) (msg : FaultMsg) (i : Nat),
      outcomes.take k = List.replicate k none →
      outcomes[k]? = some (some msg) →
      foreachBalancer arg outcomes i
        = ((List.range' i (k + 1)).map (fun j => (j, arg)), some msg) := by
  intro k
  induction k with
  | zero =>
    intro outcomes msg i _ hk
    cases outcomes with
    | nil => simp at hk
    | cons o rest =>
      simp at hk
      subst hk
      simp [foreachBalancer, List.range']
  | succ k ih =>
    intro outcomes msg i htake hk
    cases outcomes with
    | nil => simp at hk
    | cons o rest =>
      have hhead : o = none ∧ rest.take k = List.replicate k none := by
        rw [List.take_succ_cons, List.replicate_succ] at htake
        exact ⟨List.head_eq_of_cons_eq htake, List.tail_eq_of_cons_eq htake⟩
      rcases hhead with ⟨rfl, htake'⟩
      have hk' : rest[k]? = some (some msg) := by simpa using hk
      simp [foreachBalancer, List.range', ih rest msg (i + 1) htake' hk']

/-- C8 (amended).  The chained `add_nodes`, `delete_nodes` and
`delete_pool` all fan out through `_foreach_balancer`: every child is
invoked in configuration-list order with identical arguments as long as no
child fails; when child k is the first to fail, children 0..k-1 have
already been invoked (mutated) with those same arguments, child k's
exception propagates to the caller, and — contrary to the claim's "no
early exit" wording — children after k are NOT invoked. -/
theorem chained_fanout_first_fault {α : Type} (arg : α)
    (outcomes : List ChildOutcome) (pool : Pool) (nodes : List Node) :
    chainedAddNodes outcomes pool nodes = foreachBalancer (pool, nodes) outcomes 0
    ∧ chainedDeleteNodes outcomes pool nodes = foreachBalancer (pool, nodes) outcomes 0
    ∧ chainedDeletePool outcomes pool = foreachBalancer pool outcomes 0
    ∧ ((∀ o ∈ outcomes, o = none) →
        foreachBalancer arg outcomes 0
          = ((List.range outcomes.length).map (fun j => (j, arg)), none))
    ∧ (∀ k msg, outcomes.take k = List.replicate k none →
        outcomes[k]? = some (some msg) →
        foreachBalancer arg outcomes 0
          = ((List.range (k + 1)).map (fun j => (j, arg)), some msg)) := by
  refine ⟨rfl, rfl, rfl, ?_, ?_⟩
  · intro hall
    rw [foreachBalancer_all_ok arg outcomes 0 hall, List.range_eq_range']
  · intro k msg htake hk
    rw [foreachBalancer_first_fault arg k outcomes msg 0 htake hk,
      List.range_eq_range']

/-- Witness for C8 (amended): with two children whose second call fails,
both children are invoked with identical arguments and the failure
propagates. -/
theorem chained_fanout_first_fault_witness :
    foreachBalancer ("p", ["n"]) [none, some "boom"] 0
      = ((List.range 2).map (fun j => (j, ("p", ["n"]))), some "boom") :=
  (chained_fanout_first_fault ("p", ["n"]) [none, some "boom"] "p" ["n"]).2.2.2.2
    1 "boom" (by decide) (by decide)

/-- Counterexample to C8 as stated: when the first child fails, the second
child is never invoked, so the operation is not "invoked on every child
backend ... with no early exit on failure". -/
theorem chained_fanout_skips_after_failure :
    (chainedAddNodes [some "boom", none] "p" ["n"]).2 = some "boom"
    ∧ (1, ("p", ["n"])) ∉ (chainedAddNodes [some "boom", none] "p" ["n"]).1 := by
  decide

end VrBalancer
